import Mathlib

/-!
Shallow embedding of the AURA multi-agent orchestration core
(dnalang-gateway): agent data model, synthesizer confidence,
orchestration loop and stopping policy, workflow classification,
lattice coherence, and the websocket connection manager.

Numbers that are Python floats are modelled as exact rationals; Python
lists/sets/dicts are modelled as Lean lists and association lists.
-/

namespace Aura

/-- `AgentType` enum from `services/aura/models.py`. -/
inductive AgentType where
  | ARCHITECT
  | ENGINEER
  | REVIEWER
  | DEBUGGER
  | RESEARCH
  | SYNTHESIZER
  deriving DecidableEq, Repr

/-- `AgentStatus` enum from `services/aura/models.py`. -/
inductive AgentStatus where
  | IDLE
  | ACTIVE
  | WORKING
  | COMPLETED
  | ERROR
  deriving DecidableEq, Repr

/-- The value list of the `AgentType` enum, in declaration order: the
iteration order of the orchestrator's `self.agents` dict. -/
def agentTypes : List AgentType :=
  [AgentType.ARCHITECT, AgentType.ENGINEER, AgentType.REVIEWER,
   AgentType.DEBUGGER, AgentType.RESEARCH, AgentType.SYNTHESIZER]

/-- `AgentVector` from `services/aura/models.py` (the `role` field is
carried by the owning agent and omitted here; the three numeric fields
are the ones the invariants speak about). -/
structure AgentVector where
  weight : ℚ
  gamma_resistance : ℚ
  w2_optimization : ℚ
  deriving DecidableEq, Repr

/-- The vector every `BaseAgent.__init__` builds
(`base_agent.py` lines 50-55). -/
def initVector : AgentVector :=
  { weight := 1, gamma_resistance := 8/10, w2_optimization := 0 }

/-- `BaseAgent.update_w2_optimization` (`base_agent.py` lines 186-189):
`self.vector.w2_optimization = max(0.0, min(score, 1.0))`. -/
def update_w2_optimization (score : ℚ) (v : AgentVector) : AgentVector :=
  { v with w2_optimization := max 0 (min score 1) }

/-- The vector part of `BaseAgent.reset` (`base_agent.py` line 209):
`self.vector.w2_optimization = 0.0`. -/
def resetVector (v : AgentVector) : AgentVector :=
  { v with w2_optimization := 0 }

/-- The operations that ever touch an agent's vector after construction. -/
inductive VectorOp where
  | updateW2 (score : ℚ)
  | reset
  deriving Repr

/-- Apply one vector operation. -/
def applyVectorOp (v : AgentVector) (op : VectorOp) : AgentVector :=
  match op with
  | VectorOp.updateW2 s => update_w2_optimization s v
  | VectorOp.reset => resetVector v

/-- Apply a sequence of vector operations, oldest first. -/
def applyVectorOps (ops : List VectorOp) : AgentVector :=
  ops.foldl applyVectorOp initVector

/-- All three numeric fields of the vector lie in `[0,1]`. -/
def vectorInRange (v : AgentVector) : Prop :=
  0 ≤ v.weight ∧ v.weight ≤ 1 ∧
  0 ≤ v.gamma_resistance ∧ v.gamma_resistance ≤ 1 ∧
  0 ≤ v.w2_optimization ∧ v.w2_optimization ≤ 1

/-- `AgentMemory.short_term` step of `BaseAgent.update_memory`
(`base_agent.py` lines 174-176):
`self.memory.short_term = (self.memory.short_term + short_term)[-10:]`;
a `None` argument leaves the field untouched. Python `l[-10:]` keeps the
last 10 elements (all of them when fewer). -/
def lastN (n : Nat) (l : List String) : List String :=
  l.drop (l.length - n)

/-- One `update_memory` call, restricted to its `short_term` effect. -/
def update_memory_short_term (mem : List String) (arg : Option (List String)) :
    List String :=
  match arg with
  | none => mem
  | some st => lastN 10 (mem ++ st)

/-- A sequence of `update_memory` calls starting from the initial empty
short-term memory (`base_agent.py` lines 58-62). -/
def runMemoryCalls (calls : List (Option (List String))) : List String :=
  calls.foldl update_memory_short_term []

/-- Everything that was ever appended by the calls, oldest first. -/
def appendedEntries (calls : List (Option (List String))) : List String :=
  (calls.filterMap id).flatten

/-- The slice of `AgentResponse` (`models.py` lines 128-135) that the
orchestration loop inspects. -/
structure AgentResp where
  agent_type : AgentType
  response : String
  confidence : ℚ
  deriving DecidableEq, Repr

/-- `AuraOrchestrator._should_continue` (`orchestrator.py` lines
235-261): stop when `iteration >= max_iterations - 1`; continue when no
responses were collected yet; stop when the last collected response's
confidence is `>= 0.9`; otherwise continue. -/
def should_continue (responses : List AgentResp)
    (iteration max_iterations : Nat) : Bool :=
  if max_iterations - 1 ≤ iteration then false
  else
    match responses.getLast? with
    | none => true
    | some r => if (9 : ℚ)/10 ≤ r.confidence then false else true

/-- Modelled from the spec's wording of the stopping policy: "stop if
this was the last permitted iteration; continue if no responses exist
yet; stop once the latest response's confidence ≥ 0.9; otherwise
continue" (iterations are numbered from 0, so iteration `i` is the last
permitted one when `i + 1 ≥ max_iterations`). -/
def stopping_policy_spec (responses : List AgentResp)
    (iteration max_iterations : Nat) : Bool :=
  if max_iterations ≤ iteration + 1 then false
  else if responses.isEmpty then true
  else
    match responses.getLast? with
    | none => true
    | some r => if r.confidence < (9 : ℚ)/10 then true else false

/-- `AuraOrchestrator.get_lattice_state` coherence computation
(`orchestrator.py` line 350): the sum of the six agents'
`vector.w2_optimization` divided by the number of agents. -/
def lattice_coherence (w2 : AgentType → ℚ) : ℚ :=
  (agentTypes.map w2).sum / (agentTypes.length : ℚ)

/-- The synthetic score assignment `{0.2, 0.4, 0.6, 0.8, 1.0, 0.0}`
used by the spec's coherence test vector. -/
def sampleScores : AgentType → ℚ
  | AgentType.ARCHITECT => 2/10
  | AgentType.ENGINEER => 4/10
  | AgentType.REVIEWER => 6/10
  | AgentType.DEBUGGER => 8/10
  | AgentType.RESEARCH => 1
  | AgentType.SYNTHESIZER => 0

/-- Character-sequence match at the head: does `hay` start with
`needle`? (The primitive behind Python's substring test.) -/
def seqStartsWith : List Char → List Char → Bool
  | [], _ => true
  | _ :: _, [] => false
  | a :: as, b :: bs => a == b && seqStartsWith as bs

/-- Python's `needle in hay` substring test on character sequences. -/
def seqContains (needle : List Char) : List Char → Bool
  | [] => needle.isEmpty
  | c :: rest => seqStartsWith needle (c :: rest) || seqContains needle rest

/-- Python's `prompt.lower()`: the prompt's character sequence with
every character lowercased. -/
def promptLower (prompt : String) : List Char :=
  prompt.toList.map Char.toLower

/-- Python's `keyword in prompt_lower` membership test. -/
def containsKeyword (p : List Char) (kw : String) : Bool :=
  seqContains kw.toList p

/-- The keyword lists of `AuraOrchestrator._determine_workflow`
(`orchestrator.py` lines 203, 207, 211). -/
def debugKeywords : List String :=
  ["error", "bug", "debug", "fix", "broken", "failing"]

/-- Review-workflow keywords. -/
def reviewKeywords : List String :=
  ["review", "check", "audit", "improve"]

/-- Research-workflow keywords. -/
def researchKeywords : List String :=
  ["how to", "what is", "explain", "research", "find"]

/-- `AuraOrchestrator._determine_workflow` (`orchestrator.py` lines
194-215): lowercase the prompt, then test the three keyword groups in
priority order, falling back to the default workflow. -/
def determine_workflow (prompt : String) : List AgentType :=
  let p := promptLower prompt
  if debugKeywords.any (fun kw => containsKeyword p kw) then
    [AgentType.DEBUGGER, AgentType.ENGINEER, AgentType.REVIEWER]
  else if reviewKeywords.any (fun kw => containsKeyword p kw) then
    [AgentType.REVIEWER, AgentType.ENGINEER]
  else if researchKeywords.any (fun kw => containsKeyword p kw) then
    [AgentType.RESEARCH, AgentType.ARCHITECT]
  else
    [AgentType.ARCHITECT, AgentType.ENGINEER, AgentType.REVIEWER]

/-- Synthesizer confidence as a function of the number of agent outputs
in its context (`synthesizer_agent.py` lines 133-137):
`quality = 0.9`; `if len(agent_outputs) > 0: quality = min(0.95, 0.7 +
len(agent_outputs) * 0.05)`; the returned `AgentResponse.confidence` is
this quality. -/
def synthesis_quality (n : Nat) : ℚ :=
  if 0 < n then min (95/100) (7/10 + n * (5/100)) else 9/10

/-- A websocket connection, identified abstractly. -/
abbrev Conn := Nat

/-- The `ConnectionManager.active_connections` dict
(`aura_websocket.py` line 26): session id → set of websockets, modelled
as an association list whose keys are unique and whose connection lists
are duplicate-free. -/
abbrev Manager := List (String × List Conn)

/-- Python dict lookup `active_connections[sid]` /
`sid in active_connections`. -/
def lookupSession (sid : String) : Manager → Option (List Conn)
  | [] => none
  | (k, v) :: rest => if k = sid then some v else lookupSession sid rest

/-- Python dict assignment `active_connections[sid] = cs` for a key
already present. -/
def setSession (sid : String) (cs : List Conn) : Manager → Manager
  | [] => []
  | (k, v) :: rest =>
      if k = sid then (k, cs) :: rest else (k, v) :: setSession sid cs rest

/-- Python `del active_connections[sid]`. -/
def removeSession (sid : String) : Manager → Manager
  | [] => []
  | (k, v) :: rest =>
      if k = sid then rest else (k, v) :: removeSession sid rest

/-- `ConnectionManager.connect` (`aura_websocket.py` lines 28-35): create
the session's entry when absent, then add the websocket to its set (a
set-add: a no-op when already present). -/
def connect (ws : Conn) (sid : String) (m : Manager) : Manager :=
  match lookupSession sid m with
  | none => (sid, [ws]) :: m
  | some cs => setSession sid (if ws ∈ cs then cs else cs ++ [ws]) m

/-- `ConnectionManager.disconnect` (`aura_websocket.py` lines 37-44):
discard the websocket from the session's set, then delete the whole
entry when the set became empty; a no-op for unknown sessions. -/
def disconnect (ws : Conn) (sid : String) (m : Manager) : Manager :=
  match lookupSession sid m with
  | none => m
  | some cs =>
      let cs' := cs.erase ws
      if cs' = [] then removeSession sid m else setSession sid cs' m

/-- The `for connection in connections` loop of
`ConnectionManager.broadcast_to_session` (`aura_websocket.py` lines
61-67): send to each connection of the snapshot; a failed send
(`sendOk c = false`, the caught exception branch) disconnects that one
connection and delivery continues. Returns the updated manager and the
connections the message was delivered to, in snapshot order. -/
def broadcastLoop (sendOk : Conn → Bool) (sid : String) :
    List Conn → Manager → Manager × List Conn
  | [], m => (m, [])
  | c :: rest, m =>
      if sendOk c then
        let r := broadcastLoop sendOk sid rest m
        (r.1, c :: r.2)
      else
        broadcastLoop sendOk sid rest (disconnect c sid m)

/-- `ConnectionManager.broadcast_to_session` (`aura_websocket.py` lines
53-67): no-op for unknown sessions, otherwise iterate over a snapshot
list of the session's current connection set. -/
def broadcast_to_session (sendOk : Conn → Bool) (sid : String)
    (m : Manager) : Manager × List Conn :=
  match lookupSession sid m with
  | none => (m, [])
  | some cs => broadcastLoop sendOk sid cs m

/-- The `subscribe_lattice` branch of `websocket_endpoint`
(`aura_websocket.py` lines 226-232): when the session's orchestrator
exists, send the current lattice state via
`ConnectionManager.send_lattice_update`, which wraps the lattice frame
and hands it to `broadcast_to_session`; otherwise nothing is sent. -/
def handle_subscribe_lattice (sendOk : Conn → Bool) (sid : String)
    (orchestratorExists : Bool) (m : Manager) : Manager × List Conn :=
  if orchestratorExists then broadcast_to_session sendOk sid m else (m, [])

/-- The behaviour of the external completion call as observed per agent
per iteration: `none` models the agent's `process` raising an exception
(the caught branch of `orchestrator.py` lines 130-132), `some r` a
successful `AgentResponse`. -/
def AgentBehavior := AgentType → Nat → Option AgentResp

/-- The inner `for agent_type in workflow` loop of `process_request`
(`orchestrator.py` lines 101-132): agents not in `agents_enabled` are
skipped; an invoked agent either appends its response or fails, and in
both cases the loop proceeds with the remaining agents. The returned
event list records every agent invocation in order. -/
def runWorkflow (behavior : AgentBehavior) (iter : Nat)
    (enabled : List AgentType) :
    List AgentType → List AgentResp → List AgentType →
      List AgentResp × List AgentType
  | [], responses, events => (responses, events)
  | a :: rest, responses, events =>
      if a ∈ enabled then
        match behavior a iter with
        | some r =>
            runWorkflow behavior iter enabled rest (responses ++ [r])
              (events ++ [a])
        | none =>
            runWorkflow behavior iter enabled rest responses (events ++ [a])
      else
        runWorkflow behavior iter enabled rest responses events

/-- The `for iteration in range(max_iterations)` loop of
`process_request` (`orchestrator.py` lines 97-136): run the workflow,
then break unless `_should_continue`. The fuel argument is the number of
range items left; the result's first component counts the full passes
executed. -/
def runLoop (behavior : AgentBehavior) (enabled wf : List AgentType)
    (m : Nat) :
    Nat → Nat → List AgentResp → List AgentType →
      Nat × List AgentResp × List AgentType
  | _, 0, responses, events => (0, responses, events)
  | i, fuel + 1, responses, events =>
      let w := runWorkflow behavior i enabled wf responses events
      if should_continue w.1 i m then
        let r := runLoop behavior enabled wf m (i + 1) fuel w.1 w.2
        (r.1 + 1, r.2.1, r.2.2)
      else
        (1, w.1, w.2)

/-- The synthesizer's response as built by `SynthesizerAgent.process`
from the collected loop responses (`synthesizer_agent.py` lines
133-161): its confidence is the synthesis quality for the number of
integrated outputs; the response text comes from the external completion
call and is opaque here. -/
def synthResponse (responses : List AgentResp) : AgentResp :=
  { agent_type := AgentType.SYNTHESIZER,
    response := "synthesis",
    confidence := synthesis_quality responses.length }

/-- `AuraOrchestrator.process_request` (`orchestrator.py` lines 69-192)
restricted to its control flow: classify the workflow, run the bounded
iteration loop, then invoke the Synthesizer exactly once on the
collected responses (`synthOk = false` models the synthesizer itself
raising, which propagates: the response list is then absent while the
invocation still happened). Returns (iterations executed, final agent
response list when the request succeeds, invocation events). -/
def process_request (behavior : AgentBehavior) (synthOk : Bool)
    (prompt : String) (enabled : List AgentType) (max_iterations : Nat) :
    Nat × Option (List AgentResp) × List AgentType :=
  let wf := determine_workflow prompt
  let t := runLoop behavior enabled wf max_iterations 0 max_iterations [] []
  if synthOk then
    (t.1, some (t.2.1 ++ [synthResponse t.2.1]),
      t.2.2 ++ [AgentType.SYNTHESIZER])
  else
    (t.1, none, t.2.2 ++ [AgentType.SYNTHESIZER])

/-- The connection-manager operations called from concurrent handlers. -/
inductive ManagerOp where
  | connectOp (ws : Conn) (sid : String)
  | disconnectOp (ws : Conn) (sid : String)
  | broadcastOp (sid : String) (sendOk : Conn → Bool)

/-- Apply one manager operation to the state (broadcast's delivery list
is not part of the state). -/
def applyManagerOp (m : Manager) (op : ManagerOp) : Manager :=
  match op with
  | ManagerOp.connectOp ws sid => connect ws sid m
  | ManagerOp.disconnectOp ws sid => disconnect ws sid m
  | ManagerOp.broadcastOp sid sendOk => (broadcast_to_session sendOk sid m).1

/-- Apply a sequence of manager operations from the initial empty
registry (`__init__`, `aura_websocket.py` line 26). -/
def applyManagerOps (ops : List ManagerOp) : Manager :=
  ops.foldl applyManagerOp []

/-- Well-formedness of the registry: unique session keys, every
registered set non-empty and duplicate-free. -/
def managerWF (m : Manager) : Prop :=
  (m.map Prod.fst).Nodup ∧ ∀ p ∈ m, p.2 ≠ [] ∧ p.2.Nodup

end Aura

namespace Aura

/-- C8 helper: `vectorInRange` is preserved by each operation. -/
theorem applyVectorOp_inRange (v : AgentVector) (op : VectorOp)
    (h : vectorInRange v) : vectorInRange (applyVectorOp v op) := by
  obtain ⟨h1, h2, h3, h4, h5, h6⟩ := h
  cases op with
  | updateW2 s =>
      refine ⟨h1, h2, h3, h4, ?_, ?_⟩
      · exact le_max_left 0 _
      · simp only [applyVectorOp, update_w2_optimization, max_le_iff]
        exact ⟨by norm_num, le_trans (min_le_right s 1) le_rfl⟩
  | reset =>
      exact ⟨h1, h2, h3, h4, le_refl 0,
        by norm_num [applyVectorOp, resetVector]⟩

/-- C8 helper: `vectorInRange` is preserved by a whole operation list. -/
theorem foldl_applyVectorOp_inRange (ops : List VectorOp) (v : AgentVector)
    (h : vectorInRange v) : vectorInRange (ops.foldl applyVectorOp v) := by
  induction ops generalizing v with
  | nil => exact h
  | cons op rest ih => exact ih _ (applyVectorOp_inRange v op h)

/-- C8: for every agent, `weight`, `gamma_resistance` (decoherence
resistance) and `w2_optimization` (the optimization score) remain in
`[0,1]` after any sequence of vector operations from the initial vector,
`update_w2_optimization` with an arbitrary rational argument included;
and the stored score after such an update is the argument clamped to
`[0,1]`. -/
theorem vector_fields_clamped (ops : List VectorOp) :
    vectorInRange (applyVectorOps ops) ∧
    (∀ v : AgentVector, ∀ s : ℚ,
      (update_w2_optimization s v).w2_optimization = max 0 (min s 1)) := by
  constructor
  · exact foldl_applyVectorOp_inRange ops initVector
      ⟨by norm_num [initVector], by norm_num [initVector],
       by norm_num [initVector], by norm_num [initVector],
       by norm_num [initVector], by norm_num [initVector]⟩
  · intro v s
    rfl

/-- C7 helper: `lastN n` keeps at most `n` entries. -/
theorem lastN_length_le (n : Nat) (l : List String) : (lastN n l).length ≤ n := by
  simp only [lastN, List.length_drop]
  omega

/-- C7 helper: re-capping an already capped list before appending agrees
with capping the full concatenation. -/
theorem lastN_lastN_append (n : Nat) (a b : List String) :
    lastN n (lastN n a ++ b) = lastN n (a ++ b) := by
  have hk : a.length - n ≤ a.length := Nat.sub_le _ _
  simp only [lastN]
  rw [← List.drop_append_of_le_length hk, List.drop_drop]
  congr 1
  simp only [List.length_drop, List.length_append]
  omega

/-- C7 helper: running the calls from a capped accumulator computes the
cap of the full concatenation. -/
theorem foldl_update_memory (calls : List (Option (List String))) :
    ∀ acc : List String,
      calls.foldl update_memory_short_term (lastN 10 acc) =
        lastN 10 (acc ++ appendedEntries calls) := by
  induction calls with
  | nil =>
      intro acc
      simp [appendedEntries]
  | cons arg rest ih =>
      intro acc
      cases arg with
      | none =>
          simpa [appendedEntries, update_memory_short_term] using ih acc
      | some st =>
          have h1 : update_memory_short_term (lastN 10 acc) (some st) =
              lastN 10 (acc ++ st) := lastN_lastN_append 10 acc st
          simp only [List.foldl_cons, h1]
          have h2 := ih (acc ++ st)
          simp only [List.append_assoc] at h2
          simpa [appendedEntries] using h2

/-- C7: after any sequence of `update_memory` calls starting from the
empty short-term memory, the short-term memory has at most 10 entries,
and it consists of exactly the most recently appended entries in
insertion order (the last-10 slice of everything ever appended). -/
theorem short_term_memory_cap (calls : List (Option (List String))) :
    (runMemoryCalls calls).length ≤ 10 ∧
    runMemoryCalls calls = lastN 10 (appendedEntries calls) := by
  have h : runMemoryCalls calls = lastN 10 (appendedEntries calls) := by
    have := foldl_update_memory calls []
    simpa [runMemoryCalls, lastN] using this
  exact ⟨h ▸ lastN_length_le 10 (appendedEntries calls), h⟩

/-- C2 counterexample: synthesizer confidence is not monotone in the
number of integrated agent outputs — zero outputs yield confidence 0.9
while one output yields 0.75. -/
theorem synthesis_not_monotone :
    ¬ (synthesis_quality 0 ≤ synthesis_quality 1) := by
  norm_num [synthesis_quality]

/-- C2 (amended): for synthesizer invocations whose contexts carry at
least one agent output, confidence is monotonically non-decreasing in
the number of outputs, and every returned confidence is strictly below
1.0 (zero-output contexts return 0.9, which exceeds the confidence for
one to four outputs). -/
theorem synthesis_quality_monotone_pos :
    (∀ m n : Nat, 1 ≤ m → m ≤ n →
      synthesis_quality m ≤ synthesis_quality n) ∧
    (∀ n : Nat, synthesis_quality n < 1) := by
  constructor
  · intro m n hm hmn
    have hm' : 0 < m := hm
    have hn' : 0 < n := lt_of_lt_of_le hm' hmn
    simp only [synthesis_quality, if_pos hm', if_pos hn']
    refine min_le_min le_rfl ?_
    have : (m : ℚ) ≤ (n : ℚ) := by exact_mod_cast hmn
    nlinarith
  · intro n
    by_cases hn : 0 < n
    · simp only [synthesis_quality, if_pos hn]
      exact lt_of_le_of_lt (min_le_left _ _) (by norm_num)
    · simp only [synthesis_quality, if_neg hn]
      norm_num

/-- C2 witness for the amended monotonicity at concrete inputs. -/
theorem synthesis_quality_monotone_pos_witness :
    synthesis_quality 1 ≤ synthesis_quality 3 ∧ synthesis_quality 3 < 1 :=
  ⟨synthesis_quality_monotone_pos.1 1 3 (by norm_num) (by norm_num),
   synthesis_quality_monotone_pos.2 3⟩

/-- C3: `_should_continue` implements exactly the spec's four-step
stopping policy, and whenever the last collected response has
confidence 0.95 (more generally ≥ 0.9) the loop does not continue, for
any iteration index and any `max_iterations ≥ 1`. -/
theorem stopping_policy_correct :
    (∀ (r : List AgentResp) (i m : Nat),
      should_continue r i m = stopping_policy_spec r i m) ∧
    (∀ (r : List AgentResp) (i m : Nat) (x : AgentResp),
      1 ≤ m → r.getLast? = some x → x.confidence = 95/100 →
      should_continue r i m = false) := by
  constructor
  · intro r i m
    simp only [should_continue, stopping_policy_spec]
    by_cases hm : m - 1 ≤ i
    · rw [if_pos hm, if_pos (by omega)]
    · rw [if_neg hm, if_neg (by omega)]
      cases hr : r.getLast? with
      | none =>
          have : r = [] := List.getLast?_eq_none_iff.mp hr
          simp [this]
      | some x =>
          have hne : r.isEmpty = false := by
            cases r with
            | nil => simp at hr
            | cons a t => rfl
          simp only [hne, Bool.false_eq_true, if_false]
          by_cases hc : (9 : ℚ)/10 ≤ x.confidence
          · rw [if_pos hc, if_neg (not_lt.mpr hc)]
          · rw [if_neg hc, if_pos (not_le.mp hc)]
  · intro r i m x hm hr hc
    simp only [should_continue, hr]
    by_cases hi : m - 1 ≤ i
    · rw [if_pos hi]
    · rw [if_neg hi, if_pos (by rw [hc]; norm_num)]

/-- C3 witness: at `max_iterations = 5`, iteration 0, with one collected
response of confidence 0.95, the loop stops. -/
theorem stopping_policy_correct_witness :
    should_continue [⟨AgentType.ENGINEER, "done", 95/100⟩] 0 5 = false :=
  stopping_policy_correct.2 [⟨AgentType.ENGINEER, "done", 95/100⟩] 0 5
    ⟨AgentType.ENGINEER, "done", 95/100⟩ (by norm_num) rfl rfl

/-- C4: workflow classification is a deterministic, priority-ordered
function of the lowercased task text: a debugging keyword selects
[Debugger, Engineer, Reviewer] regardless of any other keywords (so a
task with both a debugging and a review keyword gets the debugging
workflow); otherwise a review keyword selects [Reviewer, Engineer];
otherwise a research keyword selects [Research, Architect]; otherwise
the default [Architect, Engineer, Reviewer] applies. -/
theorem workflow_classification :
    (∀ p : String,
      debugKeywords.any (fun kw => containsKeyword (promptLower p) kw) = true →
      determine_workflow p =
        [AgentType.DEBUGGER, AgentType.ENGINEER, AgentType.REVIEWER]) ∧
    (∀ p : String,
      debugKeywords.any (fun kw => containsKeyword (promptLower p) kw) = false →
      reviewKeywords.any (fun kw => containsKeyword (promptLower p) kw) = true →
      determine_workflow p = [AgentType.REVIEWER, AgentType.ENGINEER]) ∧
    (∀ p : String,
      debugKeywords.any (fun kw => containsKeyword (promptLower p) kw) = false →
      reviewKeywords.any (fun kw => containsKeyword (promptLower p) kw) = false →
      researchKeywords.any (fun kw => containsKeyword (promptLower p) kw) = true →
      determine_workflow p = [AgentType.RESEARCH, AgentType.ARCHITECT]) ∧
    (∀ p : String,
      debugKeywords.any (fun kw => containsKeyword (promptLower p) kw) = false →
      reviewKeywords.any (fun kw => containsKeyword (promptLower p) kw) = false →
      researchKeywords.any (fun kw => containsKeyword (promptLower p) kw) = false →
      determine_workflow p =
        [AgentType.ARCHITECT, AgentType.ENGINEER, AgentType.REVIEWER]) := by
  refine ⟨?_, ?_, ?_, ?_⟩
  · intro p h
    simp [determine_workflow, h]
  · intro p h1 h2
    simp [determine_workflow, h1, h2]
  · intro p h1 h2 h3
    simp [determine_workflow, h1, h2, h3]
  · intro p h1 h2 h3
    simp [determine_workflow, h1, h2, h3]

/-- C4 witness: the four classification tiers at the spec's sample
prompts, including a prompt carrying both a debugging and a review
keyword. -/
theorem workflow_classification_witness :
    determine_workflow "fix this error and review it" =
      [AgentType.DEBUGGER, AgentType.ENGINEER, AgentType.REVIEWER] ∧
    determine_workflow "can you review my code" =
      [AgentType.REVIEWER, AgentType.ENGINEER] ∧
    determine_workflow "what is a qubit" =
      [AgentType.RESEARCH, AgentType.ARCHITECT] ∧
    determine_workflow "build me a login page" =
      [AgentType.ARCHITECT, AgentType.ENGINEER, AgentType.REVIEWER] :=
  ⟨workflow_classification.1 _ (by decide),
   workflow_classification.2.1 _ (by decide) (by decide),
   workflow_classification.2.2.1 _ (by decide) (by decide) (by decide),
   workflow_classification.2.2.2 _ (by decide) (by decide) (by decide)⟩

/-- C9: the reported lattice coherence is the arithmetic mean of the six
agents' optimization scores, and on the synthetic score assignment
`{0.2, 0.4, 0.6, 0.8, 1.0, 0.0}` it equals 0.5. -/
theorem lattice_coherence_is_mean :
    (∀ f : AgentType → ℚ,
      lattice_coherence f =
        (f AgentType.ARCHITECT + f AgentType.ENGINEER +
         f AgentType.REVIEWER + f AgentType.DEBUGGER +
         f AgentType.RESEARCH + f AgentType.SYNTHESIZER) / 6) ∧
    lattice_coherence sampleScores = 1/2 := by
  constructor
  · intro f
    simp only [lattice_coherence, agentTypes, List.map_cons, List.map_nil,
      List.sum_cons, List.sum_nil, List.length_cons, List.length_nil]
    norm_num
    ring
  · norm_num [lattice_coherence, agentTypes, sampleScores]

/-- Registry helper: a failed lookup means the key is absent. -/
theorem lookupSession_eq_none {sid : String} {m : Manager} :
    lookupSession sid m = none ↔ sid ∉ m.map Prod.fst := by
  induction m with
  | nil => simp [lookupSession]
  | cons p rest ih =>
      obtain ⟨k, v⟩ := p
      by_cases hk : k = sid
      · subst hk
        simp [lookupSession]
      · simp only [lookupSession, if_neg hk, List.map_cons, List.mem_cons, ih]
        constructor
        · intro h hmem
          rcases hmem with h1 | h2
          · exact hk h1.symm
          · exact h h2
        · intro h h2
          exact h (Or.inr h2)

/-- Registry helper: a successful lookup produces an entry of the list. -/
theorem lookupSession_mem {sid : String} {cs : List Conn} {m : Manager}
    (h : lookupSession sid m = some cs) : (sid, cs) ∈ m := by
  induction m with
  | nil => simp [lookupSession] at h
  | cons p rest ih =>
      obtain ⟨k, v⟩ := p
      by_cases hk : k = sid
      · subst hk
        have hv : v = cs := by simpa [lookupSession] using h
        subst hv
        exact List.mem_cons_self _ _
      · simp only [lookupSession, if_neg hk] at h
        exact List.mem_cons_of_mem _ (ih h)

/-- Registry helper: rewriting an entry to its current value is the
identity. -/
theorem setSession_self {sid : String} {cs : List Conn} {m : Manager}
    (h : lookupSession sid m = some cs) : setSession sid cs m = m := by
  induction m with
  | nil => rfl
  | cons p rest ih =>
      obtain ⟨k, v⟩ := p
      by_cases hk : k = sid
      · subst hk
        have hv : v = cs := by simpa [lookupSession] using h
        subst hv
        simp [setSession]
      · simp only [lookupSession, if_neg hk] at h
        simp [setSession, hk, ih h]

/-- Registry helper: lookup after rewriting the same key. -/
theorem lookupSession_setSession_self {sid : String} {cs : List Conn}
    {m : Manager} (h : lookupSession sid m = some cs) (v : List Conn) :
    lookupSession sid (setSession sid v m) = some v := by
  induction m with
  | nil => simp [lookupSession] at h
  | cons p rest ih =>
      obtain ⟨k, w⟩ := p
      by_cases hk : k = sid
      · subst hk
        simp [setSession, lookupSession]
      · simp only [lookupSession, if_neg hk] at h
        simp [setSession, lookupSession, hk, ih h]

/-- Registry helper: rewriting one key does not affect lookups of other
keys. -/
theorem lookupSession_setSession_ne {sid' sid : String} (h : sid' ≠ sid)
    (v : List Conn) (m : Manager) :
    lookupSession sid' (setSession sid v m) = lookupSession sid' m := by
  induction m with
  | nil => rfl
  | cons p rest ih =>
      obtain ⟨k, w⟩ := p
      by_cases hk : k = sid
      · subst hk
        simp [setSession, lookupSession, Ne.symm h]
      · by_cases hk' : k = sid'
        · subst hk'
          simp [setSession, lookupSession, hk]
        · simp [setSession, lookupSession, hk, hk', ih]

/-- Registry helper: after deleting a key (with unique keys), its lookup
fails. -/
theorem lookupSession_removeSession_self {sid : String} {m : Manager}
    (hnd : (m.map Prod.fst).Nodup) :
    lookupSession sid (removeSession sid m) = none := by
  induction m with
  | nil => rfl
  | cons p rest ih =>
      obtain ⟨k, v⟩ := p
      simp only [List.map_cons, List.nodup_cons] at hnd
      by_cases hk : k = sid
      · subst hk
        simp only [removeSession, if_pos rfl]
        exact lookupSession_eq_none.mpr hnd.1
      · simp only [removeSession, if_neg hk, lookupSession, if_neg hk]
        exact ih hnd.2

/-- Registry helper: deleting one key does not affect lookups of other
keys. -/
theorem lookupSession_removeSession_ne {sid' sid : String} (h : sid' ≠ sid)
    (m : Manager) :
    lookupSession sid' (removeSession sid m) = lookupSession sid' m := by
  induction m with
  | nil => rfl
  | cons p rest ih =>
      obtain ⟨k, v⟩ := p
      by_cases hk : k = sid
      · subst hk
        simp [removeSession, lookupSession, Ne.symm h]
      · simp [removeSession, lookupSession, hk, ih]

/-- Registry helper: rewriting an entry keeps the key list. -/
theorem map_fst_setSession (sid : String) (v : List Conn) (m : Manager) :
    (setSession sid v m).map Prod.fst = m.map Prod.fst := by
  induction m with
  | nil => rfl
  | cons p rest ih =>
      obtain ⟨k, w⟩ := p
      by_cases hk : k = sid
      · simp [setSession, hk]
      · simp [setSession, hk, ih]

/-- Registry helper: deletion yields a sublist. -/
theorem removeSession_sublist (sid : String) (m : Manager) :
    (removeSession sid m).Sublist m := by
  induction m with
  | nil => exact List.Sublist.refl _
  | cons p rest ih =>
      obtain ⟨k, v⟩ := p
      by_cases hk : k = sid
      · simp only [removeSession, if_pos hk]
        exact List.sublist_cons_self _ _
      · simp only [removeSession, if_neg hk]
        exact List.Sublist.cons₂ _ ih

/-- Registry helper: entries after a rewrite are the new value or old
entries. -/
theorem mem_setSession {p : String × List Conn} {sid : String}
    {v : List Conn} {m : Manager} (h : p ∈ setSession sid v m) :
    p.2 = v ∨ p ∈ m := by
  induction m with
  | nil => simp [setSession] at h
  | cons q rest ih =>
      obtain ⟨k, w⟩ := q
      by_cases hk : k = sid
      · simp only [setSession, if_pos hk, List.mem_cons] at h
        rcases h with h | h
        · exact Or.inl (by rw [h])
        · exact Or.inr (List.mem_cons_of_mem _ h)
      · simp only [setSession, if_neg hk, List.mem_cons] at h
        rcases h with h | h
        · exact Or.inr (h ▸ List.mem_cons_self _ _)
        · rcases ih h with h' | h'
          · exact Or.inl h'
          · exact Or.inr (List.mem_cons_of_mem _ h')

/-- Registry helper: `connect` preserves well-formedness. -/
theorem managerWF_connect (ws : Conn) (sid : String) {m : Manager}
    (h : managerWF m) : managerWF (connect ws sid m) := by
  obtain ⟨hkeys, hvals⟩ := h
  unfold connect
  cases hl : lookupSession sid m with
  | none =>
      refine ⟨?_, ?_⟩
      · simp only [List.map_cons, List.nodup_cons]
        exact ⟨lookupSession_eq_none.mp hl, hkeys⟩
      · intro p hp
        rcases List.mem_cons.mp hp with h | h
        · subst h
          exact ⟨by simp, by simp⟩
        · exact hvals p h
  | some cs =>
      have hmem : (sid, cs) ∈ m := lookupSession_mem hl
      obtain ⟨hne, hnd⟩ := hvals _ hmem
      refine ⟨?_, ?_⟩
      · rw [map_fst_setSession]
        exact hkeys
      · intro p hp
        rcases mem_setSession hp with h | h
        · rw [h]
          by_cases hin : ws ∈ cs
          · simp only [if_pos hin]
            exact ⟨hne, hnd⟩
          · simp only [if_neg hin]
            constructor
            · simp
            · simp [List.nodup_append, hnd, hin]
        · exact hvals p h

/-- Registry helper: `disconnect` preserves well-formedness. -/
theorem managerWF_disconnect (ws : Conn) (sid : String) {m : Manager}
    (h : managerWF m) : managerWF (disconnect ws sid m) := by
  obtain ⟨hkeys, hvals⟩ := h
  unfold disconnect
  cases hl : lookupSession sid m with
  | none => exact ⟨hkeys, hvals⟩
  | some cs =>
      have hmem : (sid, cs) ∈ m := lookupSession_mem hl
      obtain ⟨hne, hnd⟩ := hvals _ hmem
      by_cases hemp : cs.erase ws = []
      · simp only [hemp, if_pos rfl]
        refine ⟨?_, ?_⟩
        · exact ((removeSession_sublist sid m).map Prod.fst).nodup hkeys
        · intro p hp
          exact hvals p ((removeSession_sublist sid m).mem hp)
      · simp only [if_neg hemp]
        refine ⟨?_, ?_⟩
        · rw [map_fst_setSession]
          exact hkeys
        · intro p hp
          rcases mem_setSession hp with h | h
          · rw [h]
            exact ⟨hemp, hnd.erase ws⟩
          · exact hvals p h

/-- Registry helper: the broadcast loop only applies disconnects, so it
preserves well-formedness. -/
theorem managerWF_broadcastLoop (sendOk : Conn → Bool) (sid : String)
    (l : List Conn) :
    ∀ {m : Manager}, managerWF m → managerWF (broadcastLoop sendOk sid l m).1 := by
  induction l with
  | nil => intro m h; exact h
  | cons c rest ih =>
      intro m h
      simp only [broadcastLoop]
      by_cases hc : sendOk c
      · simp only [if_pos hc]
        exact ih h
      · simp only [if_neg hc]
        exact ih (managerWF_disconnect c sid h)

/-- Registry helper: `broadcast_to_session` preserves well-formedness. -/
theorem managerWF_broadcast (sendOk : Conn → Bool) (sid : String)
    {m : Manager} (h : managerWF m) :
    managerWF (broadcast_to_session sendOk sid m).1 := by
  unfold broadcast_to_session
  cases hl : lookupSession sid m with
  | none => exact h
  | some cs => exact managerWF_broadcastLoop sendOk sid cs h

/-- Registry helper: every reachable registry state is well-formed. -/
theorem managerWF_applyManagerOps (ops : List ManagerOp) :
    managerWF (applyManagerOps ops) := by
  have hgen : ∀ (l : List ManagerOp) (m : Manager), managerWF m →
      managerWF (l.foldl applyManagerOp m) := by
    intro l
    induction l with
    | nil => intro m h; exact h
    | cons op rest ih =>
        intro m h
        cases op with
        | connectOp ws sid => exact ih _ (managerWF_connect ws sid h)
        | disconnectOp ws sid => exact ih _ (managerWF_disconnect ws sid h)
        | broadcastOp sid sendOk => exact ih _ (managerWF_broadcast sendOk sid h)
  exact hgen ops [] ⟨List.nodup_nil, by simp⟩

/-- Broadcast helper: the message is delivered exactly to the snapshot
connections whose send succeeds, in snapshot order, independent of the
disconnects performed along the way. -/
theorem broadcastLoop_delivered (sendOk : Conn → Bool) (sid : String)
    (l : List Conn) :
    ∀ m : Manager, (broadcastLoop sendOk sid l m).2 = l.filter sendOk := by
  induction l with
  | nil => intro m; rfl
  | cons c rest ih =>
      intro m
      simp only [broadcastLoop]
      by_cases hc : sendOk c
      · simp [if_pos hc, List.filter_cons, hc, ih m]
      · simp [if_neg hc, List.filter_cons, hc, ih (disconnect c sid m)]

/-- Broadcast helper: the final registry is the original with each
failed snapshot connection disconnected, in snapshot order. -/
theorem broadcastLoop_manager (sendOk : Conn → Bool) (sid : String)
    (l : List Conn) :
    ∀ m : Manager, (broadcastLoop sendOk sid l m).1 =
      (l.filter (fun c => !sendOk c)).foldl
        (fun mm c => disconnect c sid mm) m := by
  induction l with
  | nil => intro m; rfl
  | cons c rest ih =>
      intro m
      simp only [broadcastLoop]
      by_cases hc : sendOk c
      · simp [if_pos hc, List.filter_cons, hc, ih m]
      · simp [if_neg hc, List.filter_cons, hc, ih (disconnect c sid m)]

/-- Broadcast helper: filtering a duplicate-free list for one of its
members yields exactly that member. -/
theorem nodup_filter_beq_single {l : List Conn} {b : Conn}
    (hnd : l.Nodup) (hb : b ∈ l) : l.filter (fun c => c == b) = [b] := by
  induction l with
  | nil => simp at hb
  | cons x t ih =>
      rw [List.nodup_cons] at hnd
      rcases List.mem_cons.mp hb with h | h
      · subst h
        simp only [List.filter_cons, beq_self_eq_true, if_pos trivial]
        have : t.filter (fun c => c == b) = [] := by
          refine List.filter_eq_nil_iff.mpr ?_
          intro a ha hab
          exact hnd.1 ((beq_iff_eq.mp hab) ▸ ha)
        rw [this]
      · have hxb : (x == b) = false := by
          refine beq_eq_false_iff_ne.mpr ?_
          intro he
          exact hnd.1 (he ▸ h)
        simp only [List.filter_cons, hxb]
        exact ih hnd.2 h

/-- C6: if the session has the connection set `cs` and the send fails
for exactly one connection `bad` of `cs`, `broadcast_to_session` still
delivers the message to all other connections, exactly `bad` is removed
from the session's active set (the whole entry disappearing when it was
the only one), other sessions are untouched, and the call returns
normally. -/
theorem broadcast_single_failure
    (m : Manager) (sid : String) (cs : List Conn) (bad : Conn)
    (sendOk : Conn → Bool)
    (hkeys : (m.map Prod.fst).Nodup)
    (hlook : lookupSession sid m = some cs)
    (hnd : cs.Nodup)
    (hbad : bad ∈ cs)
    (hfail : ∀ c ∈ cs, (sendOk c = false ↔ c = bad)) :
    (broadcast_to_session sendOk sid m).2 = cs.erase bad ∧
    lookupSession sid (broadcast_to_session sendOk sid m).1 =
      (if cs.erase bad = [] then none else some (cs.erase bad)) ∧
    (∀ sid', sid' ≠ sid →
      lookupSession sid' (broadcast_to_session sendOk sid m).1 =
        lookupSession sid' m) := by
  have hsOk : ∀ c ∈ cs, sendOk c = (c != bad) := by
    intro c hc
    obtain ⟨h1, h2⟩ := hfail c hc
    cases hs : sendOk c with
    | false =>
        have : c = bad := h1 hs
        simp [this]
    | true =>
        have hcb : c ≠ bad := by
          intro he
          rw [h2 he] at hs
          cases hs
        simp [hcb]
  have hmgr : (broadcast_to_session sendOk sid m).1 = disconnect bad sid m := by
    unfold broadcast_to_session
    rw [hlook, broadcastLoop_manager]
    have hlist : cs.filter (fun c => !sendOk c) = [bad] := by
      have hcong : ∀ c ∈ cs, (!sendOk c) = (c == bad) := by
        intro c hc
        rw [hsOk c hc]
        simp [bne]
      rw [List.filter_congr hcong]
      exact nodup_filter_beq_single hnd hbad
    rw [hlist]
    rfl
  refine ⟨?_, ?_, ?_⟩
  · unfold broadcast_to_session
    rw [hlook, broadcastLoop_delivered, List.filter_congr hsOk]
    exact (hnd.erase_eq_filter bad).symm
  · rw [hmgr]
    unfold disconnect
    rw [hlook]
    by_cases hemp : cs.erase bad = []
    · simp only [hemp, if_pos rfl, if_pos hemp]
      exact lookupSession_removeSession_self hkeys
    · simp only [if_neg hemp]
      exact lookupSession_setSession_self hlook _
  · intro sid' hne
    rw [hmgr]
    unfold disconnect
    rw [hlook]
    by_cases hemp : cs.erase bad = []
    · simp only [hemp, if_pos rfl]
      exact lookupSession_removeSession_ne hne m
    · simp only [if_neg hemp]
      exact lookupSession_setSession_ne hne _ m

/-- C6 witness: session "s" holds connections {0, 1, 2}; the send to
connection 1 fails; 0 and 2 still receive the message and exactly 1 is
dropped from the registry. -/
theorem broadcast_single_failure_witness :
    (broadcast_to_session (fun c => c != 1) "s" [("s", [0, 1, 2])]).2 =
      [0, 2] ∧
    lookupSession "s"
      (broadcast_to_session (fun c => c != 1) "s" [("s", [0, 1, 2])]).1 =
      some [0, 2] := by
  obtain ⟨h1, h2, _⟩ := broadcast_single_failure
    [("s", [0, 1, 2])] "s" [0, 1, 2] 1 (fun c => c != 1)
    (by simp) rfl (by decide) (by decide) (by decide)
  refine ⟨?_, ?_⟩
  · rw [h1]
    rfl
  · rw [h2]
    rfl

/-- C10: starting from the empty registry, after any sequence of
connect / disconnect / broadcast operations every session key present in
the registry maps to a non-empty connection set, and disconnecting a
websocket that is not registered under a session leaves the registry
unchanged. -/
theorem connection_registry_invariant (ops : List ManagerOp) (ws : Conn)
    (sid : String) :
    (∀ p ∈ applyManagerOps ops, p.2 ≠ []) ∧
    ((∀ cs, lookupSession sid (applyManagerOps ops) = some cs → ws ∉ cs) →
      disconnect ws sid (applyManagerOps ops) = applyManagerOps ops) := by
  obtain ⟨hkeys, hvals⟩ := managerWF_applyManagerOps ops
  refine ⟨fun p hp => (hvals p hp).1, ?_⟩
  intro hun
  unfold disconnect
  cases hl : lookupSession sid (applyManagerOps ops) with
  | none => rfl
  | some cs =>
      have hws : ws ∉ cs := hun cs hl
      have hne : cs ≠ [] := (hvals _ (lookupSession_mem hl)).1
      simp only [List.erase_of_not_mem hws, if_neg hne]
      exact setSession_self hl

/-- C10 witness: connect 0 and 1 to session "s", then broadcast with the
send to 0 failing (which drops 0); the registry maps "s" to the
non-empty set {1}, and disconnecting the never-registered websocket 5
changes nothing. -/
theorem connection_registry_invariant_witness :
    (∀ p ∈ applyManagerOps
        [ManagerOp.connectOp 0 "s", ManagerOp.connectOp 1 "s",
         ManagerOp.broadcastOp "s" (fun c => c != 0)], p.2 ≠ []) ∧
    disconnect 5 "s" (applyManagerOps
        [ManagerOp.connectOp 0 "s", ManagerOp.connectOp 1 "s",
         ManagerOp.broadcastOp "s" (fun c => c != 0)]) =
      applyManagerOps
        [ManagerOp.connectOp 0 "s", ManagerOp.connectOp 1 "s",
         ManagerOp.broadcastOp "s" (fun c => c != 0)] := by
  have h := connection_registry_invariant
    [ManagerOp.connectOp 0 "s", ManagerOp.connectOp 1 "s",
     ManagerOp.broadcastOp "s" (fun c => c != 0)] 5 "s"
  refine ⟨h.1, h.2 ?_⟩
  intro cs hcs
  have hcs' : some [1] = some cs := hcs
  have : cs = [1] := (Option.some.inj hcs').symm
  subst this
  decide

/-- C1 counterexample: with session "s" holding two live connections 0
and 1 (0 being the requester) and the orchestrator present, the
`subscribe_lattice` handler delivers the lattice-update frame to both
connections — a broadcast — not to the requesting connection only. -/
theorem subscribe_lattice_cex :
    (handle_subscribe_lattice (fun _ => true) "s" true [("s", [0, 1])]).2 =
      [0, 1] ∧
    (handle_subscribe_lattice (fun _ => true) "s" true [("s", [0, 1])]).2 ≠
      [0] := by
  refine ⟨rfl, by decide⟩

/-- C1 (amended): a `subscribe_lattice` frame for a session whose
orchestrator exists triggers exactly one immediate lattice-update send
to every live connection of the session (a broadcast that includes the
requester), and when all sends succeed the registry is unchanged. -/
theorem subscribe_lattice_broadcasts
    (m : Manager) (sid : String) (cs : List Conn) (sendOk : Conn → Bool)
    (hlook : lookupSession sid m = some cs)
    (hok : ∀ c ∈ cs, sendOk c = true) :
    (handle_subscribe_lattice sendOk sid true m).2 = cs ∧
    (handle_subscribe_lattice sendOk sid true m).1 = m := by
  unfold handle_subscribe_lattice broadcast_to_session
  simp only [if_true]
  rw [hlook]
  constructor
  · rw [broadcastLoop_delivered]
    exact List.filter_eq_self.mpr hok
  · rw [broadcastLoop_manager]
    have : cs.filter (fun c => !sendOk c) = [] := by
      refine List.filter_eq_nil_iff.mpr ?_
      intro c hc
      simp [hok c hc]
    rw [this]
    rfl

/-- Loop helper: the workflow pass invokes exactly the enabled workflow
agents, in order, whether or not individual invocations fail. -/
theorem runWorkflow_events (behavior : AgentBehavior) (iter : Nat)
    (enabled : List AgentType) :
    ∀ (wf : List AgentType) (resp : List AgentResp) (ev : List AgentType),
      (runWorkflow behavior iter enabled wf resp ev).2 =
        ev ++ wf.filter (fun a => decide (a ∈ enabled)) := by
  intro wf
  induction wf with
  | nil =>
      intro resp ev
      simp [runWorkflow]
  | cons a rest ih =>
      intro resp ev
      by_cases ha : a ∈ enabled
      · cases hb : behavior a iter with
        | some r =>
            simp only [runWorkflow, if_pos ha, hb]
            rw [ih]
            simp [List.filter_cons, ha]
        | none =>
            simp only [runWorkflow, if_pos ha, hb]
            rw [ih]
            simp [List.filter_cons, ha]
      · simp only [runWorkflow, if_neg ha]
        rw [ih]
        simp [List.filter_cons, ha]

/-- Loop helper: when every agent invocation raises, no response is ever
collected by a workflow pass. -/
theorem runWorkflow_responses_allfail (behavior : AgentBehavior)
    (iter : Nat) (enabled : List AgentType)
    (hfail : ∀ a i, behavior a i = none) :
    ∀ (wf : List AgentType) (resp : List AgentResp) (ev : List AgentType),
      (runWorkflow behavior iter enabled wf resp ev).1 = resp := by
  intro wf
  induction wf with
  | nil =>
      intro resp ev
      rfl
  | cons a rest ih =>
      intro resp ev
      by_cases ha : a ∈ enabled
      · simp only [runWorkflow, if_pos ha, hfail a iter]
        exact ih resp _
      · simp only [runWorkflow, if_neg ha]
        exact ih resp ev

/-- Loop helper: the loop never executes more passes than it has range
items. -/
theorem runLoop_le_fuel (behavior : AgentBehavior)
    (enabled wf : List AgentType) (m : Nat) :
    ∀ (fuel i : Nat) (resp : List AgentResp) (ev : List AgentType),
      (runLoop behavior enabled wf m i fuel resp ev).1 ≤ fuel := by
  intro fuel
  induction fuel with
  | zero =>
      intro i resp ev
      simp [runLoop]
  | succ fuel ih =>
      intro i resp ev
      simp only [runLoop]
      by_cases hc :
          should_continue (runWorkflow behavior i enabled wf resp ev).1 i m
      · simp only [if_pos hc]
        exact Nat.succ_le_succ (ih _ _ _)
      · simp only [if_neg hc]
        omega

/-- Loop helper: the invocation events of the whole loop are one enabled
workflow pass per executed iteration. -/
theorem runLoop_events (behavior : AgentBehavior)
    (enabled wf : List AgentType) (m : Nat) :
    ∀ (fuel i : Nat) (resp : List AgentResp) (ev : List AgentType),
      (runLoop behavior enabled wf m i fuel resp ev).2.2 =
        ev ++ (List.replicate (runLoop behavior enabled wf m i fuel resp ev).1
          (wf.filter (fun a => decide (a ∈ enabled)))).flatten := by
  intro fuel
  induction fuel with
  | zero =>
      intro i resp ev
      simp [runLoop]
  | succ fuel ih =>
      intro i resp ev
      simp only [runLoop]
      by_cases hc :
          should_continue (runWorkflow behavior i enabled wf resp ev).1 i m
      · simp only [if_pos hc]
        rw [ih, runWorkflow_events]
        simp [List.replicate_succ, List.append_assoc]
      · simp only [if_neg hc]
        rw [runWorkflow_events]
        simp

/-- Loop helper: when every agent invocation raises, no response is ever
collected, so the loop runs through all of its permitted iterations. -/
theorem runLoop_allfail (behavior : AgentBehavior)
    (enabled wf : List AgentType) (m : Nat)
    (hfail : ∀ a i, behavior a i = none) :
    ∀ (fuel i : Nat) (ev : List AgentType), i + fuel = m → 1 ≤ fuel →
      (runLoop behavior enabled wf m i fuel [] ev).1 = fuel := by
  intro fuel
  induction fuel with
  | zero =>
      intro i ev hsum h1
      omega
  | succ fuel ih =>
      intro i ev hsum h1
      simp only [runLoop]
      have hresp : (runWorkflow behavior i enabled wf [] ev).1 = [] :=
        runWorkflow_responses_allfail behavior i enabled hfail wf [] ev
      by_cases hf : fuel = 0
      · subst hf
        have hstop :
            should_continue (runWorkflow behavior i enabled wf [] ev).1 i m =
              false := by
          rw [hresp]
          unfold should_continue
          rw [if_pos (by omega : m - 1 ≤ i)]
        simp [hstop]
      · have hgo :
            should_continue (runWorkflow behavior i enabled wf [] ev).1 i m =
              true := by
          rw [hresp]
          unfold should_continue
          rw [if_neg (by omega : ¬ m - 1 ≤ i)]
          rfl
        simp only [hgo, if_true]
        rw [hresp]
        rw [ih (i + 1) _ (by omega) (by omega)]

/-- Loop helper: no classified workflow contains the Synthesizer; it is
only invoked in the dedicated synthesis step. -/
theorem synthesizer_not_in_workflow (p : String) :
    AgentType.SYNTHESIZER ∉ determine_workflow p := by
  unfold determine_workflow
  by_cases h1 :
      (debugKeywords.any fun kw => containsKeyword (promptLower p) kw) = true
  · simp [h1]
  · by_cases h2 :
        (reviewKeywords.any fun kw => containsKeyword (promptLower p) kw) = true
    · simp [h1, h2]
    · by_cases h3 :
          (researchKeywords.any fun kw => containsKeyword (promptLower p) kw) = true
      · simp [h1, h2, h3]
      · simp [h1, h2, h3]

/-- C5: for any agent behaviour (including arbitrary failures), any
enabled-agent set and any `max_iterations` in `[1, 20]`,
`process_request` executes at most `max_iterations` full workflow
passes; its invocation events are exactly one enabled-workflow pass per
executed iteration (so a failed agent never prevents the remaining
agents from running) followed by exactly one Synthesizer invocation; and
when every agent invocation raises, the loop still completes all
`max_iterations` passes and the Synthesizer is still invoked. -/
theorem process_request_loop_synthesis (behavior : AgentBehavior)
    (synthOk : Bool) (prompt : String) (enabled : List AgentType)
    (m : Nat) (h1 : 1 ≤ m) (_h2 : m ≤ 20) :
    (process_request behavior synthOk prompt enabled m).1 ≤ m ∧
    (process_request behavior synthOk prompt enabled m).2.2 =
      (List.replicate (process_request behavior synthOk prompt enabled m).1
        ((determine_workflow prompt).filter
          (fun a => decide (a ∈ enabled)))).flatten ++
        [AgentType.SYNTHESIZER] ∧
    (process_request behavior synthOk prompt enabled m).2.2.count
      AgentType.SYNTHESIZER = 1 ∧
    ((∀ a i, behavior a i = none) →
      (process_request behavior synthOk prompt enabled m).1 = m) := by
  have hfst : (process_request behavior synthOk prompt enabled m).1 =
      (runLoop behavior enabled (determine_workflow prompt) m 0 m [] []).1 := by
    cases synthOk <;> simp [process_request]
  have hev : (process_request behavior synthOk prompt enabled m).2.2 =
      (runLoop behavior enabled (determine_workflow prompt) m 0 m [] []).2.2 ++
        [AgentType.SYNTHESIZER] := by
    cases synthOk <;> simp [process_request]
  have hevents : (process_request behavior synthOk prompt enabled m).2.2 =
      (List.replicate (process_request behavior synthOk prompt enabled m).1
        ((determine_workflow prompt).filter
          (fun a => decide (a ∈ enabled)))).flatten ++
        [AgentType.SYNTHESIZER] := by
    rw [hev, runLoop_events, hfst]
    simp
  have hnosynth : AgentType.SYNTHESIZER ∉
      (List.replicate (process_request behavior synthOk prompt enabled m).1
        ((determine_workflow prompt).filter
          (fun a => decide (a ∈ enabled)))).flatten := by
    intro hmem
    obtain ⟨l, hl, hmem'⟩ := List.mem_flatten.mp hmem
    have hlf := List.eq_of_mem_replicate hl
    rw [hlf] at hmem'
    exact synthesizer_not_in_workflow prompt (List.mem_of_mem_filter hmem')
  refine ⟨?_, hevents, ?_, ?_⟩
  · rw [hfst]
    exact runLoop_le_fuel behavior enabled _ m m 0 [] []
  · rw [hevents, List.count_append]
    rw [List.count_eq_zero.mpr hnosynth]
    rfl
  · intro hfail
    rw [hfst]
    exact runLoop_allfail behavior enabled _ m hfail m 0 [] (by omega) h1

/-- C5 witness: with every agent invocation failing, two permitted
iterations and all agents enabled, the loop executes exactly 2 passes
and the Synthesizer is invoked exactly once. -/
theorem process_request_loop_synthesis_witness :
    (process_request (fun _ _ => none) true "build me a login page"
      agentTypes 2).1 = 2 ∧
    (process_request (fun _ _ => none) true "build me a login page"
      agentTypes 2).2.2.count AgentType.SYNTHESIZER = 1 :=
  have h := process_request_loop_synthesis (fun _ _ => none) true
    "build me a login page" agentTypes 2 (by norm_num) (by norm_num)
  ⟨h.2.2.2 (fun _ _ => rfl), h.2.2.1⟩

/-- C1 witness for the amended claim: both live connections of session
"s" receive the lattice update and the registry is untouched. -/
theorem subscribe_lattice_broadcasts_witness :
    (handle_subscribe_lattice (fun _ => true) "sess" true
        [("sess", [3, 7])]).2 = [3, 7] ∧
    (handle_subscribe_lattice (fun _ => true) "sess" true
        [("sess", [3, 7])]).1 = [("sess", [3, 7])] :=
  subscribe_lattice_broadcasts [("sess", [3, 7])] "sess" [3, 7]
    (fun _ => true) rfl (fun _ _ => rfl)

end Aura
